import Mathlib

/-
Shallow embedding of the persistent cache subsystem of the YT_Player
repository (src/cache.py, class SmartCacheManager).

Modelling conventions:
* A Python dict is an insertion-ordered association list with unique keys
  (`Store`).  `dictInsert` models `d[k] = v` (replace in place, else append),
  `dictPop` models `d.pop(k, None)`, `lookupStore` models `d.get(k)`.
* `time.time()` returns a float; time is modelled as `Int`.  Every call to
  `time.time()` inside one lock-protected operation is modelled as the same
  instant `now`, passed explicitly to the operation.
* A cache entry is the dict `{'value': ..., 'created': ..., 'expires_at': ...,
  'hit': ...}`.  Loaded entries may lack fields, so every field is an
  `Option`; the code reads them with `entry.get('hit', 0)`,
  `v.get('created', 0)`, `entry.get('expires_at')`, `entry.get('value')`,
  modelled by `Option.getD` with the same defaults.
* The backing JSON file is modelled by `Disk`: `absent` (no file),
  `garbage` (content whose read or parse raises, i.e. the
  `json.JSONDecodeError, IOError` branch of `_load`), or `wellFormed s`
  (a JSON object parsing to store `s`).  `_save` is modelled as always
  succeeding (an I/O write failure is logged and swallowed by the code and
  leaves the in-memory store authoritative).
* The value payload is opaque to the cache; it is a type parameter `α`.
-/

namespace SmartCacheManager

variable {α : Type}

/-- One cache entry: the dict stored under a key in `self.store`.
Fields are optional because entries loaded from disk may lack them;
the source reads each with a `.get` default. -/
structure Entry (α : Type) where
  value : Option α
  created : Option Int
  expires_at : Option Int
  hit : Option Nat
deriving DecidableEq, Repr

/-- `self.store`: a Python dict `key -> entry`, i.e. an insertion-ordered
association list with unique keys. -/
abbrev Store (α : Type) := List (String × Entry α)

/-- The keys of a store, in insertion order. -/
def keys (st : Store α) : List String := st.map Prod.fst

/-- `self.store.get(key)`: first binding of `k`, if any. -/
def lookupStore (k : String) : Store α → Option (Entry α)
  | [] => none
  | kv :: rest => if kv.1 = k then some kv.2 else lookupStore k rest

/-- `self.store[key] = entry`: replace the existing binding in place
(keeping its position, as CPython dicts do), else append at the end. -/
def dictInsert (k : String) (e : Entry α) : Store α → Store α
  | [] => [(k, e)]
  | kv :: rest => if kv.1 = k then (k, e) :: rest else kv :: dictInsert k e rest

/-- `self.store.pop(key, None)`: remove the first binding of `k`, if any. -/
def dictPop (k : String) : Store α → Store α
  | [] => []
  | kv :: rest => if kv.1 = k then rest else kv :: dictPop k rest

/-- The backing file's content.  `garbage` stands for any bytes whose read
or parse raises (`json.JSONDecodeError` / `IOError` in `_load`);
`wellFormed s` for a JSON object that parses to the store `s`. -/
inductive Disk (α : Type) where
  | absent : Disk α
  | garbage : Disk α
  | wellFormed : Store α → Disk α
deriving DecidableEq

/-- The whole cache object: in-memory store, configuration, and the
backing file's current content. -/
structure CacheState (α : Type) where
  store : Store α
  maxSize : Nat
  defaultTtl : Int
  disk : Disk α
deriving DecidableEq

/-- `_load`: if the file exists and parses, the parsed object becomes the
store; a missing file leaves the initial `{}`; a read/parse failure is
caught and the store is set to `{}` (the exception never propagates). -/
def load : Disk α → Store α
  | Disk.wellFormed st => st
  | _ => []

/-- `__init__`: record the configuration, start with `store = {}`, then
`_load` from the backing file.  No save, and no capacity check, happens
at construction time. -/
def init (maxSize : Nat) (defaultTtl : Int) (d : Disk α) : CacheState α :=
  { store := load d, maxSize := maxSize, defaultTtl := defaultTtl, disk := d }

/-- The expiry test of `get`:
`entry.get('expires_at') is not None and time.time() > entry['expires_at']`. -/
def expiresPassed (now : Int) (e : Entry α) : Bool :=
  match e.expires_at with
  | none => false
  | some t => decide (now > t)

/-- The expiry test of `_evict_one`:
`v.get('expires_at') and v['expires_at'] < now`.
Python truthiness: a missing `expires_at`, a `None`, and a stored `0` are
all falsy, so an entry whose `expires_at` is `0` is never selected as
expired here (unlike in `get`, which uses `is not None`). -/
def evictExpired (now : Int) (e : Entry α) : Bool :=
  match e.expires_at with
  | none => false
  | some t => decide (t ≠ 0) && decide (t < now)

/-- The eviction rank of an entry: `(v.get('hit', 0), v.get('created', 0))`,
the sort key of `_evict_one`'s policy step. -/
def evictRank (e : Entry α) : Nat × Int := (e.hit.getD 0, e.created.getD 0)

/-- Strict lexicographic comparison of eviction ranks, as used by
`items.sort(key=lambda x: (x[1], x[2]))`. -/
def rankLt (a b : Nat × Int) : Bool :=
  decide (a.1 < b.1) || (decide (a.1 = b.1) && decide (a.2 < b.2))

/-- Non-strict lexicographic order on eviction ranks (specification side). -/
def rankLe (a b : Nat × Int) : Prop :=
  a.1 < b.1 ∨ (a.1 = b.1 ∧ a.2 ≤ b.2)

instance (a b : Nat × Int) : Decidable (rankLe a b) := by
  unfold rankLe; infer_instance

/-- The first minimum of `best :: l` under the rank order: replaces `best`
only on a strictly smaller rank, so on ties the earlier element wins —
exactly the element `items[0]` after Python's stable `items.sort`. -/
def minEvict : (String × Nat × Int) → List (String × Nat × Int) → String × Nat × Int
  | best, [] => best
  | best, x :: rest => minEvict (if rankLt x.2 best.2 then x else best) rest

/-- The victim of `_evict_one`'s policy step:
`items = [(k, v.get('hit', 0), v.get('created', 0)) for k, v in store.items()]`,
`items.sort(key=lambda x: (x[1], x[2]))`, then `items[0][0]`.
Python's sort is stable, so `items[0]` is the first item attaining the
minimal `(hit, created)` rank; `minEvict` computes it directly. -/
def selectVictim (st : Store α) : Option String :=
  match st.map (fun kv => (kv.1, evictRank kv.2)) with
  | [] => none
  | x :: rest => some (minEvict x rest).1

/-- `_evict_one`: first collect the keys whose entry passes the truthy
expiry test; if any, pop them all and return.  Otherwise, if still over
capacity, pop the single policy victim. -/
def evictOne (now : Int) (maxSize : Nat) (st : Store α) : Store α :=
  let expiredKeys := (st.filter (fun kv => evictExpired now kv.2)).map Prod.fst
  if expiredKeys.isEmpty then
    if st.length > maxSize then
      match selectVictim st with
      | some k => dictPop k st
      | none => st
    else st
  else
    expiredKeys.foldl (fun s k => dictPop k s) st

/-- The entry built by `set`: `{'value': value, 'created': time.time(),
'expires_at': (time.time() + ttl_eff) if ttl_eff > 0 else None, 'hit': 0}`. -/
def setEntry (now : Int) (v : α) (ttlEff : Int) : Entry α :=
  { value := some v
    created := some now
    expires_at := if ttlEff > 0 then some (now + ttlEff) else none
    hit := some 0 }

/-- `set`: compute `ttl_eff`, insert the fresh entry, evict once if the
store now exceeds `max_size`, then save. -/
def set (now : Int) (k : String) (v : α) (ttl : Option Int) (s : CacheState α) :
    CacheState α :=
  let ttlEff := ttl.getD s.defaultTtl
  let st1 := dictInsert k (setEntry now v ttlEff) s.store
  let st2 := if st1.length > s.maxSize then evictOne now s.maxSize st1 else st1
  { s with store := st2, disk := Disk.wellFormed st2 }

/-- `get`: absent key (Python's `if not entry`) returns `None` with no side
effect; an expired entry is popped and the store saved; otherwise the hit
counter is bumped in memory (no save) and the value returned. -/
def get (now : Int) (k : String) (s : CacheState α) : Option α × CacheState α :=
  match lookupStore k s.store with
  | none => (none, s)
  | some e =>
    if expiresPassed now e then
      let st' := dictPop k s.store
      (none, { s with store := st', disk := Disk.wellFormed st' })
    else
      let e' := { e with hit := some (e.hit.getD 0 + 1) }
      (e.value, { s with store := dictInsert k e' s.store })

/-- `clear`: empty the store and save. -/
def clear (s : CacheState α) : CacheState α :=
  { s with store := [], disk := Disk.wellFormed ([] : Store α) }

/-! ### Concrete stores and states used by witnesses and counterexamples
The value payload is instantiated at `Nat`.  Entry fields read in order:
`value`, `created`, `expires_at`, `hit`. -/

/-- Two never-expiring entries: `"a"` has 2 hits, `"b"` has 1 hit. -/
def wStoreC1 : Store Nat :=
  [("a", ⟨some 1, some 5, none, some 2⟩), ("b", ⟨some 2, some 3, none, some 1⟩)]

/-- `"a"` carries `expires_at = 0` (passed at `now = 10`, but falsy for
`_evict_one`'s truthy test) and 5 hits; `"b"` is not expired and has 0 hits. -/
def cexStoreC2 : Store Nat :=
  [("a", ⟨some 0, some 0, some 0, some 5⟩), ("b", ⟨some 9, some 10, some 20, some 0⟩)]

/-- `"a"` is truthy-expired at `now = 5` (`expires_at = 3`); `"b"` is not. -/
def wStoreC2 : Store Nat :=
  [("a", ⟨some 1, some 2, some 3, some 0⟩), ("b", ⟨some 2, some 10, some 20, some 0⟩)]

/-- Three never-expiring entries, e.g. the parse of a backing file written
when `max_size` was larger. -/
def bigStoreC3 : Store Nat :=
  [("a", ⟨some 1, some 0, none, some 0⟩), ("b", ⟨some 2, some 1, none, some 0⟩),
   ("c", ⟨some 3, some 2, none, some 0⟩)]

/-- A cache over `bigStoreC3` with `max_size = 1`. -/
def cexStateC3 : CacheState Nat :=
  { store := bigStoreC3, maxSize := 1, defaultTtl := 3600,
    disk := Disk.wellFormed bigStoreC3 }

/-- A run from an empty cache with `max_size = 1`: insert `"a"` with
`ttl = 5` at time 0, read it once at time 1 (raising its hit count to 1). -/
def runStateC4 : CacheState Nat :=
  (get 1 "a" (set 0 "a" 7 (some 5) (init 1 3600 Disk.absent))).2

/-- A run from an empty cache with `max_size = 1`: insert `"a"` with
`ttl = 0` (never expires) at time 0, read it once at time 1. -/
def runStateC9 : CacheState Nat :=
  (get 1 "a" (set 0 "a" 1 (some 0) (init 1 3600 Disk.absent))).2

/-- An expired entry (`expires_at = 3 < now`) for the C5 witness. -/
def wStateC5 : CacheState Nat :=
  { store := [("k", ⟨some 4, some 1, some 3, some 0⟩)], maxSize := 400,
    defaultTtl := 3600, disk := Disk.wellFormed [("k", ⟨some 4, some 1, some 3, some 0⟩)] }

/-! ### Lemmas about the dict operations -/

@[simp]
theorem keys_nil : keys ([] : Store α) = [] := rfl

@[simp]
theorem keys_cons (kv : String × Entry α) (st : Store α) :
    keys (kv :: st) = kv.1 :: keys st := rfl

theorem lookupStore_eq_none_of_not_mem (k : String) (st : Store α)
    (h : k ∉ keys st) : lookupStore k st = none := by
  induction st with
  | nil => simp [lookupStore]
  | cons kv rest ih =>
    have h1 : ¬ kv.1 = k := fun hEq => h (by simp [hEq])
    have h2 : k ∉ keys rest := fun hm => h (by simp [hm])
    simp [lookupStore, h1, ih h2]

theorem lookupStore_dictInsert_self (k : String) (e : Entry α) (st : Store α) :
    lookupStore k (dictInsert k e st) = some e := by
  induction st with
  | nil => simp [dictInsert, lookupStore]
  | cons kv rest ih =>
    by_cases h : kv.1 = k
    · simp [dictInsert, lookupStore, h]
    · simp [dictInsert, lookupStore, h, ih]

theorem length_dictInsert_le (k : String) (e : Entry α) (st : Store α) :
    (dictInsert k e st).length ≤ st.length + 1 := by
  induction st with
  | nil => simp [dictInsert]
  | cons kv rest ih =>
    by_cases h : kv.1 = k
    · simp [dictInsert, h]
    · simp only [dictInsert, if_neg h, List.length_cons]
      omega

theorem dictPop_sublist (k : String) (st : Store α) :
    List.Sublist (dictPop k st) st := by
  induction st with
  | nil => simp [dictPop]
  | cons kv rest ih =>
    by_cases h : kv.1 = k
    · simp only [dictPop, if_pos h]
      exact List.sublist_cons_self kv rest
    · simpa [dictPop, h] using ih.cons₂ kv

theorem length_dictPop_le (k : String) (st : Store α) :
    (dictPop k st).length ≤ st.length :=
  (dictPop_sublist k st).length_le

theorem length_dictPop_of_mem (k : String) (st : Store α) (h : k ∈ keys st) :
    (dictPop k st).length + 1 = st.length := by
  induction st with
  | nil => simp at h
  | cons kv rest ih =>
    by_cases hk : kv.1 = k
    · simp [dictPop, hk]
    · have hmem : k ∈ keys rest := by
        rcases (by simpa using h : k = kv.1 ∨ k ∈ keys rest) with h1 | h2
        · exact absurd h1.symm hk
        · exact h2
      have := ih hmem
      simp only [dictPop, if_neg hk, List.length_cons]
      omega

theorem keys_dictPop_sublist (k : String) (st : Store α) :
    List.Sublist (keys (dictPop k st)) (keys st) :=
  (dictPop_sublist k st).map Prod.fst

theorem nodup_keys_dictPop (k : String) (st : Store α)
    (h : (keys st).Nodup) : (keys (dictPop k st)).Nodup :=
  h.sublist (keys_dictPop_sublist k st)

theorem lookupStore_dictPop_self (k : String) (st : Store α)
    (h : (keys st).Nodup) : lookupStore k (dictPop k st) = none := by
  induction st with
  | nil => simp [dictPop, lookupStore]
  | cons kv rest ih =>
    have hpair := List.nodup_cons.mp (by simpa using h)
    by_cases hk : kv.1 = k
    · subst hk
      simp only [dictPop, if_pos rfl]
      exact lookupStore_eq_none_of_not_mem kv.1 rest hpair.1
    · simp only [dictPop, if_neg hk, lookupStore, if_neg hk]
      exact ih hpair.2

theorem lookupStore_dictPop_other (k k' : String) (st : Store α)
    (h : k' ≠ k) : lookupStore k' (dictPop k st) = lookupStore k' st := by
  induction st with
  | nil => simp [dictPop]
  | cons kv rest ih =>
    by_cases hk : kv.1 = k
    · have hkk : ¬ (k = k') := fun hEq => h hEq.symm
      simp [dictPop, hk, lookupStore, hkk]
    · by_cases hk' : kv.1 = k'
      · simp [dictPop, hk, lookupStore, hk', h]
      · simp [dictPop, hk, lookupStore, hk', ih]

theorem mem_of_lookupStore (k : String) (e : Entry α) (st : Store α)
    (h : lookupStore k st = some e) : (k, e) ∈ st := by
  induction st with
  | nil => simp [lookupStore] at h
  | cons kv rest ih =>
    by_cases hk : kv.1 = k
    · simp only [lookupStore, if_pos hk] at h
      obtain ⟨k1, e1⟩ := kv
      simp only at hk
      subst hk
      simp only [Option.some.injEq] at h
      subst h
      exact List.mem_cons_self _ _
    · simp only [lookupStore, if_neg hk] at h
      exact List.mem_cons_of_mem _ (ih h)

theorem mem_keys_of_lookupStore (k : String) (e : Entry α) (st : Store α)
    (h : lookupStore k st = some e) : k ∈ keys st :=
  List.mem_map_of_mem Prod.fst (mem_of_lookupStore k e st h)

theorem lookupStore_of_mem_nodup (k : String) (e : Entry α) (st : Store α)
    (hnd : (keys st).Nodup) (h : (k, e) ∈ st) : lookupStore k st = some e := by
  induction st with
  | nil => simp at h
  | cons kv rest ih =>
    have hpair := List.nodup_cons.mp (by simpa using hnd)
    rcases List.mem_cons.mp h with h | h
    · simp [lookupStore, ← h]
    · have hk : ¬ kv.1 = k := by
        intro hEq
        exact hpair.1 (hEq ▸ List.mem_map_of_mem Prod.fst h)
      simp [lookupStore, hk, ih hpair.2 h]

/-! ### Lemmas about folding `dictPop` over a key list -/

theorem foldl_dictPop_sublist (ks : List String) (st : Store α) :
    List.Sublist (ks.foldl (fun s j => dictPop j s) st) st := by
  induction ks generalizing st with
  | nil => simp
  | cons j ks ih =>
    simp only [List.foldl_cons]
    exact (ih (dictPop j st)).trans (dictPop_sublist j st)

theorem length_foldl_dictPop_le (ks : List String) (st : Store α) :
    (ks.foldl (fun s j => dictPop j s) st).length ≤ st.length :=
  (foldl_dictPop_sublist ks st).length_le

theorem nodup_keys_foldl_dictPop (ks : List String) (st : Store α)
    (h : (keys st).Nodup) :
    (keys (ks.foldl (fun s j => dictPop j s) st)).Nodup :=
  h.sublist ((foldl_dictPop_sublist ks st).map Prod.fst)

theorem lookupStore_foldl_dictPop (ks : List String) (k : String) (st : Store α)
    (hnd : (keys st).Nodup) :
    lookupStore k (ks.foldl (fun s j => dictPop j s) st)
      = if k ∈ ks then none else lookupStore k st := by
  induction ks generalizing st with
  | nil => simp
  | cons j ks ih =>
    simp only [List.foldl_cons]
    rw [ih (dictPop j st) (nodup_keys_dictPop j st hnd)]
    by_cases hkj : k = j
    · subst hkj
      by_cases hmem : k ∈ ks
      · simp [hmem]
      · simp [hmem, lookupStore_dictPop_self k st hnd]
    · rw [lookupStore_dictPop_other j k st hkj]
      by_cases hmem : k ∈ ks
      · simp [hmem]
      · simp [hmem, hkj]

/-! ### Lemmas about the eviction rank order and victim selection -/

theorem rankLe_refl (a : Nat × Int) : rankLe a a := Or.inr ⟨rfl, le_refl _⟩

theorem rankLe_trans (a b c : Nat × Int) (h1 : rankLe a b) (h2 : rankLe b c) :
    rankLe a c := by
  rcases h1 with h1 | ⟨h1, h1'⟩ <;> rcases h2 with h2 | ⟨h2, h2'⟩ <;>
    unfold rankLe <;> omega

theorem rankLe_of_rankLt (a b : Nat × Int) (h : rankLt a b = true) : rankLe a b := by
  simp only [rankLt, Bool.or_eq_true, Bool.and_eq_true, decide_eq_true_eq] at h
  unfold rankLe
  omega

theorem rankLe_of_not_rankLt (a b : Nat × Int) (h : rankLt a b = false) :
    rankLe b a := by
  simp only [rankLt, Bool.or_eq_false_iff, Bool.and_eq_false_iff,
    decide_eq_false_iff_not] at h
  unfold rankLe
  omega

theorem minEvict_mem (best : String × Nat × Int) (l : List (String × Nat × Int)) :
    minEvict best l ∈ best :: l := by
  induction l generalizing best with
  | nil => simp [minEvict]
  | cons x rest ih =>
    simp only [minEvict]
    rcases List.mem_cons.mp (ih (if rankLt x.2 best.2 then x else best)) with h | h
    · by_cases hlt : rankLt x.2 best.2
      · rw [h, if_pos hlt]
        simp
      · rw [h, if_neg hlt]
        simp
    · simp [List.mem_cons_of_mem, h]

theorem minEvict_le (best : String × Nat × Int) (l : List (String × Nat × Int)) :
    rankLe (minEvict best l).2 best.2 ∧
      ∀ x ∈ l, rankLe (minEvict best l).2 x.2 := by
  induction l generalizing best with
  | nil => exact ⟨rankLe_refl _, by simp⟩
  | cons x rest ih =>
    simp only [minEvict]
    by_cases hlt : rankLt x.2 best.2
    · rw [if_pos hlt]
      obtain ⟨ih1, ih2⟩ := ih x
      refine ⟨rankLe_trans _ _ _ ih1 (rankLe_of_rankLt _ _ hlt), ?_⟩
      intro y hy
      rcases List.mem_cons.mp hy with rfl | hy
      · exact ih1
      · exact ih2 y hy
    · rw [if_neg hlt]
      obtain ⟨ih1, ih2⟩ := ih best
      refine ⟨ih1, ?_⟩
      intro y hy
      have hfalse : rankLt x.2 best.2 = false := by
        revert hlt
        cases rankLt x.2 best.2 <;> simp
      rcases List.mem_cons.mp hy with rfl | hy
      · exact rankLe_trans _ _ _ ih1 (rankLe_of_not_rankLt _ _ hfalse)
      · exact ih2 y hy

/-- The policy victim exists for a nonempty store, is bound in the store, and
its `(hit, created)` rank is lexicographically minimal among all entries. -/
theorem selectVictim_spec (st : Store α) (hne : st ≠ []) :
    ∃ k e, (k, e) ∈ st ∧ selectVictim st = some k ∧
      ∀ kv ∈ st, rankLe (evictRank e) (evictRank kv.2) := by
  match st, hne with
  | kv :: rest, _ =>
    have hmem : minEvict (kv.1, evictRank kv.2)
          (rest.map (fun p => (p.1, evictRank p.2)))
        ∈ (kv :: rest).map (fun p => (p.1, evictRank p.2)) := by
      simpa using minEvict_mem (kv.1, evictRank kv.2)
        (rest.map (fun p => (p.1, evictRank p.2)))
    obtain ⟨⟨k0, e0⟩, hk0mem, hk0eq⟩ := List.mem_map.mp hmem
    have hsel : selectVictim (kv :: rest)
        = some (minEvict (kv.1, evictRank kv.2)
            (rest.map (fun p => (p.1, evictRank p.2)))).1 := rfl
    have hrank : evictRank e0 = (minEvict (kv.1, evictRank kv.2)
        (rest.map (fun p => (p.1, evictRank p.2)))).2 := by
      rw [← hk0eq]
    refine ⟨k0, e0, hk0mem, ?_, ?_⟩
    · rw [hsel, ← hk0eq]
    · intro kv' hkv'
      obtain ⟨hle1, hle2⟩ := minEvict_le (kv.1, evictRank kv.2)
        (rest.map (fun p => (p.1, evictRank p.2)))
      rcases List.mem_cons.mp hkv' with rfl | hmem2
      · rw [hrank]
        exact hle1
      · rw [hrank]
        exact hle2 _ (List.mem_map_of_mem (fun p => (p.1, evictRank p.2)) hmem2)

theorem selectVictim_mem_keys (st : Store α) (k : String)
    (h : selectVictim st = some k) : k ∈ keys st := by
  match st with
  | [] => simp [selectVictim] at h
  | kv :: rest =>
    obtain ⟨k0, e0, hmem, hsel, _⟩ := selectVictim_spec (kv :: rest) (by simp)
    rw [hsel] at h
    obtain rfl : k0 = k := by simpa using h
    exact List.mem_map_of_mem Prod.fst hmem

/-! ### Lemmas about `evictOne` -/

/-- An entry counted as expired by `_evict_one`'s truthy test has certainly
passed its expiry in the sense of `get`'s test (the converse fails at
`expires_at = 0`). -/
theorem expiresPassed_of_evictExpired (now : Int) (e : Entry α)
    (h : evictExpired now e = true) : expiresPassed now e = true := by
  cases he : e.expires_at with
  | none => simp [evictExpired, he] at h
  | some t =>
    simp [evictExpired, he] at h
    simp only [expiresPassed, he, decide_eq_true_eq]
    omega

/-- Whatever branch `_evict_one` takes, the resulting store is a sublist of
the input store: eviction only removes bindings. -/
theorem evictOne_sublist (now : Int) (maxSize : Nat) (st : Store α) :
    List.Sublist (evictOne now maxSize st) st := by
  simp only [evictOne]
  by_cases hemp : ((st.filter (fun kv => evictExpired now kv.2)).map Prod.fst).isEmpty
  · rw [if_pos hemp]
    by_cases hlen : st.length > maxSize
    · rw [if_pos hlen]
      cases hsel : selectVictim st with
      | none => exact List.Sublist.refl st
      | some k => exact dictPop_sublist k st
    · rw [if_neg hlen]
  · rw [if_neg hemp]
    exact foldl_dictPop_sublist _ st

/-! ### The claims -/

/-- C1: when `set` triggers eviction (the store strictly exceeds `max_size`)
and no stored entry is expired, `_evict_one` removes exactly one binding:
one whose `(hit_count, created_at)` rank is lexicographically minimal
(lowest hit count, ties broken by oldest creation time); every other
binding is left untouched. -/
theorem evict_no_expired_removes_one_min (now : Int) (maxSize : Nat)
    (st : Store α) (hnd : (keys st).Nodup) (hlen : st.length > maxSize)
    (hexp : ∀ kv ∈ st, expiresPassed now kv.2 = false) :
    ∃ k e, lookupStore k st = some e ∧
      evictOne now maxSize st = dictPop k st ∧
      (evictOne now maxSize st).length + 1 = st.length ∧
      lookupStore k (evictOne now maxSize st) = none ∧
      (∀ k', k' ≠ k → lookupStore k' (evictOne now maxSize st) = lookupStore k' st) ∧
      ∀ kv ∈ st, rankLe (evictRank e) (evictRank kv.2) := by
  have hfilter : st.filter (fun kv => evictExpired now kv.2) = [] := by
    rw [List.filter_eq_nil_iff]
    intro kv hkv
    intro hcontra
    have := expiresPassed_of_evictExpired now kv.2 (by simpa using hcontra)
    rw [hexp kv hkv] at this
    exact Bool.false_ne_true this
  have hne : st ≠ [] := by
    intro hEq
    rw [hEq] at hlen
    simp at hlen
  obtain ⟨k, e, hmem, hsel, hmin⟩ := selectVictim_spec st hne
  have heq : evictOne now maxSize st = dictPop k st := by
    simp only [evictOne, hfilter]
    simp [hlen, hsel]
  have hkeys : k ∈ keys st := List.mem_map_of_mem Prod.fst hmem
  refine ⟨k, e, lookupStore_of_mem_nodup k e st hnd hmem, heq, ?_, ?_, ?_, hmin⟩
  · rw [heq]
    exact length_dictPop_of_mem k st hkeys
  · rw [heq]
    exact lookupStore_dictPop_self k st hnd
  · intro k' hk'
    rw [heq]
    exact lookupStore_dictPop_other k k' st hk'

/-- C1 witness: the theorem instantiated on a concrete two-entry store over
capacity 1; the victim is `"b"` (hit count 1 against `"a"`'s 2). -/
theorem evict_no_expired_removes_one_min_witness :
    (keys wStoreC1).Nodup ∧ wStoreC1.length > 1 ∧
      (∀ kv ∈ wStoreC1, expiresPassed 0 kv.2 = false) ∧
      (∃ k e, lookupStore k wStoreC1 = some e ∧
        evictOne 0 1 wStoreC1 = dictPop k wStoreC1 ∧
        (evictOne 0 1 wStoreC1).length + 1 = wStoreC1.length ∧
        lookupStore k (evictOne 0 1 wStoreC1) = none ∧
        (∀ k', k' ≠ k → lookupStore k' (evictOne 0 1 wStoreC1) = lookupStore k' wStoreC1) ∧
        ∀ kv ∈ wStoreC1, rankLe (evictRank e) (evictRank kv.2)) :=
  ⟨by decide, by decide, by decide,
    evict_no_expired_removes_one_min 0 1 wStoreC1 (by decide) (by decide) (by decide)⟩

/-- Helper: when at least one entry passes `_evict_one`'s truthy expiry
test, `_evict_one` takes the expired branch and pops every collected key. -/
theorem evictOne_expired_branch (now : Int) (maxSize : Nat) (st : Store α)
    (h : (st.filter (fun kv => evictExpired now kv.2)).map Prod.fst ≠ []) :
    evictOne now maxSize st
      = ((st.filter (fun kv => evictExpired now kv.2)).map Prod.fst).foldl
          (fun s k => dictPop k s) st := by
  simp only [evictOne]
  rw [if_neg]
  intro hcontra
  exact h (List.isEmpty_iff.mp hcontra)

/-- C2 corrected: the original claim reads "expired" as "`expires_at`
present and passed", but `_evict_one` tests `v.get('expires_at') and
v['expires_at'] < now`, whose first conjunct is Python-falsy when
`expires_at` is `0`.  The statement that holds is about truthy-expired
entries (nonzero `expires_at` already passed): when at least one stored
entry is truthy-expired, the eviction pass removes every truthy-expired
entry and leaves every other binding untouched. -/
theorem evict_expired_removes_all_truthy_expired (now : Int) (maxSize : Nat)
    (st : Store α) (hnd : (keys st).Nodup)
    (hexp : ∃ kv ∈ st, evictExpired now kv.2 = true) :
    (∀ k e, lookupStore k st = some e → evictExpired now e = true →
        lookupStore k (evictOne now maxSize st) = none) ∧
    (∀ k e, lookupStore k st = some e → evictExpired now e = false →
        lookupStore k (evictOne now maxSize st) = some e) := by
  obtain ⟨kv0, hkv0mem, hkv0exp⟩ := hexp
  have hksne : (st.filter (fun kv => evictExpired now kv.2)).map Prod.fst ≠ [] := by
    have : kv0 ∈ st.filter (fun kv => evictExpired now kv.2) :=
      List.mem_filter.mpr ⟨hkv0mem, hkv0exp⟩
    intro hEq
    rw [List.map_eq_nil_iff] at hEq
    rw [hEq] at this
    simp at this
  have heq := evictOne_expired_branch now maxSize st hksne
  constructor
  · intro k e hlook hkexp
    rw [heq, lookupStore_foldl_dictPop _ k st hnd]
    have hkmem : k ∈ (st.filter (fun kv => evictExpired now kv.2)).map Prod.fst := by
      have hm : (k, e) ∈ st.filter (fun kv => evictExpired now kv.2) :=
        List.mem_filter.mpr ⟨mem_of_lookupStore k e st hlook, hkexp⟩
      exact List.mem_map_of_mem Prod.fst hm
    rw [if_pos hkmem]
  · intro k e hlook hkexp
    rw [heq, lookupStore_foldl_dictPop _ k st hnd]
    have hknmem : k ∉ (st.filter (fun kv => evictExpired now kv.2)).map Prod.fst := by
      intro hkmem
      obtain ⟨kv, hkvfil, hkvfst⟩ := List.mem_map.mp hkmem
      obtain ⟨hkvst, hkvexp⟩ := List.mem_filter.mp hkvfil
      have hkv : kv = (k, kv.2) := by
        rw [← hkvfst]
      have : lookupStore k st = some kv.2 :=
        lookupStore_of_mem_nodup k kv.2 st hnd (hkv ▸ hkvst)
      rw [hlook] at this
      obtain rfl : e = kv.2 := by simpa using this
      rw [hkvexp] at hkexp
      simp at hkexp
    rw [if_neg hknmem]
    exact hlook

/-- C2 counterexample: on `cexStoreC2` over capacity 1 at `now = 10`,
`"a"` has passed its `expires_at` (0 < 10) in the sense of the claim, yet
the eviction pass keeps `"a"` and removes the non-expired `"b"` instead
(Python's truthiness makes `expires_at = 0` falsy in `_evict_one`). -/
theorem evict_expired_claim_counterexample :
    cexStoreC2.length > 1 ∧
      (∃ kv ∈ cexStoreC2, expiresPassed 10 kv.2 = true) ∧
      lookupStore "a" cexStoreC2 = some ⟨some 0, some 0, some 0, some 5⟩ ∧
      expiresPassed 10 (⟨some 0, some 0, some 0, some 5⟩ : Entry Nat) = true ∧
      lookupStore "a" (evictOne 10 1 cexStoreC2)
        = some ⟨some 0, some 0, some 0, some 5⟩ ∧
      expiresPassed 10 (⟨some 9, some 10, some 20, some 0⟩ : Entry Nat) = false ∧
      lookupStore "b" cexStoreC2 = some ⟨some 9, some 10, some 20, some 0⟩ ∧
      lookupStore "b" (evictOne 10 1 cexStoreC2) = none := by
  refine ⟨by decide, ⟨("a", ⟨some 0, some 0, some 0, some 5⟩), by decide, by decide⟩,
    by decide, by decide, by decide, by decide, by decide, by decide⟩

/-- C2 witness: the amended theorem on `wStoreC2` at `now = 5`: the
truthy-expired `"a"` is removed, the live `"b"` is kept. -/
theorem evict_expired_removes_all_truthy_expired_witness :
    (keys wStoreC2).Nodup ∧
      (∃ kv ∈ wStoreC2, evictExpired 5 kv.2 = true) ∧
      ((∀ k e, lookupStore k wStoreC2 = some e → evictExpired 5 e = true →
          lookupStore k (evictOne 5 1 wStoreC2) = none) ∧
        (∀ k e, lookupStore k wStoreC2 = some e → evictExpired 5 e = false →
          lookupStore k (evictOne 5 1 wStoreC2) = some e)) :=
  ⟨by decide, ⟨("a", ⟨some 1, some 2, some 3, some 0⟩), by decide, by decide⟩,
    evict_expired_removes_all_truthy_expired 5 1 wStoreC2 (by decide)
      ⟨("a", ⟨some 1, some 2, some 3, some 0⟩), by decide, by decide⟩⟩

/-- Helper: an over-capacity store strictly shrinks under `_evict_one`
(both the expired branch and the policy branch remove at least one
binding). -/
theorem evictOne_length_lt (now : Int) (maxSize : Nat) (st : Store α)
    (hlen : st.length > maxSize) :
    (evictOne now maxSize st).length < st.length := by
  simp only [evictOne]
  by_cases hemp : ((st.filter (fun kv => evictExpired now kv.2)).map Prod.fst).isEmpty
  · rw [if_pos hemp, if_pos hlen]
    have hne : st ≠ [] := by
      intro hEq
      rw [hEq] at hlen
      simp at hlen
    obtain ⟨k, e, hmem, hsel, _⟩ := selectVictim_spec st hne
    rw [hsel]
    show (dictPop k st).length < st.length
    have := length_dictPop_of_mem k st (List.mem_map_of_mem Prod.fst hmem)
    omega
  · rw [if_neg hemp]
    cases hks : (st.filter (fun kv => evictExpired now kv.2)).map Prod.fst with
    | nil => rw [hks] at hemp; simp at hemp
    | cons j ks =>
      simp only [List.foldl_cons]
      have hj : j ∈ keys st := by
        have hjm : j ∈ (st.filter (fun kv => evictExpired now kv.2)).map Prod.fst := by
          rw [hks]
          simp
        obtain ⟨kv, hkvf, hkvfst⟩ := List.mem_map.mp hjm
        exact hkvfst ▸ List.mem_map_of_mem Prod.fst (List.mem_filter.mp hkvf).1
      have h1 := length_dictPop_of_mem j st hj
      have h2 := length_foldl_dictPop_le ks (dictPop j st)
      omega

/-- C3 corrected: the claim quantifies over every store state, but a store
loaded from disk may already exceed `max_size` and one `set` removes at
most one non-expired binding, so the bound cannot be restored in one call.
The statement that holds: whenever the store respects the bound before the
call, it respects it after — `set` inserts one entry and eviction strictly
shrinks an over-capacity store. -/
theorem set_preserves_capacity (s : CacheState α) (now : Int) (k : String)
    (v : α) (ttl : Option Int) (h : s.store.length ≤ s.maxSize) :
    ((set now k v ttl s).store).length ≤ s.maxSize := by
  simp only [set]
  have hins := length_dictInsert_le k (setEntry now v (ttl.getD s.defaultTtl)) s.store
  by_cases hlen :
      (dictInsert k (setEntry now v (ttl.getD s.defaultTtl)) s.store).length > s.maxSize
  · rw [if_pos hlen]
    have := evictOne_length_lt now s.maxSize
      (dictInsert k (setEntry now v (ttl.getD s.defaultTtl)) s.store) hlen
    omega
  · rw [if_neg hlen]
    omega

/-- C3 counterexample: `cexStateC3` holds three entries with `max_size = 1`
(as a loaded backing file can produce); a `set` of a fresh key inserts one
entry and evicts only one, leaving three entries — still above `max_size`
when the call returns. -/
theorem set_capacity_counterexample :
    cexStateC3.store.length = 3 ∧ cexStateC3.maxSize = 1 ∧
      ((set 5 "d" 4 (some 0) cexStateC3).store).length = 3 ∧
      ((set 5 "d" 4 (some 0) cexStateC3).store).length > cexStateC3.maxSize := by
  refine ⟨by decide, by decide, by decide, by decide⟩

/-- C3 witness: the corrected theorem on a one-entry store with
`max_size = 1` (within capacity): after inserting a second key eviction
runs and the store is back to one entry. -/
theorem set_preserves_capacity_witness :
    runStateC9.store.length ≤ runStateC9.maxSize ∧
      ((set 3 "c" 5 (some 0) runStateC9).store).length ≤ runStateC9.maxSize :=
  ⟨by decide, set_preserves_capacity runStateC9 3 "c" 5 (some 0) (by decide)⟩

/-- Helper: the entry freshly written by `set` never passes `get`'s expiry
test at the very instant of insertion: its `expires_at` is either absent or
`now + ttl_eff` with `ttl_eff > 0`, never strictly below `now`. -/
theorem expiresPassed_setEntry_now (now : Int) (v : α) (ttlEff : Int) :
    expiresPassed now (setEntry now v ttlEff) = false := by
  unfold expiresPassed setEntry
  by_cases hp : ttlEff > 0
  · simp only [if_pos hp, decide_eq_false_iff_not]
    omega
  · simp [if_neg hp]

/-- Helper: when the insertion does not push the store over `max_size`,
`set` performs no eviction and its resulting store is exactly the
insertion. -/
theorem set_store_no_evict (s : CacheState α) (now : Int) (k : String) (v : α)
    (ttl : Option Int)
    (h : (dictInsert k (setEntry now v (ttl.getD s.defaultTtl)) s.store).length
        ≤ s.maxSize) :
    (set now k v ttl s).store
      = dictInsert k (setEntry now v (ttl.getD s.defaultTtl)) s.store := by
  simp only [set]
  rw [if_neg (by omega)]

/-- Helper: a key bound after `d[k] = e` was the inserted key or was
already bound. -/
theorem mem_keys_dictInsert (j k : String) (e : Entry α) (st : Store α)
    (h : j ∈ keys (dictInsert k e st)) : j = k ∨ j ∈ keys st := by
  induction st with
  | nil =>
    simp [dictInsert] at h
    exact Or.inl h
  | cons kv rest ih =>
    by_cases hk : kv.1 = k
    · simp only [dictInsert, if_pos hk] at h
      rcases (by simpa using h : j = k ∨ j ∈ keys rest) with h | h
      · exact Or.inl h
      · exact Or.inr (by simp [h])
    · simp only [dictInsert, if_neg hk] at h
      rcases (by simpa using h : j = kv.1 ∨ j ∈ keys (dictInsert k e rest)) with h | h
      · exact Or.inr (by simp [h])
      · rcases ih h with h | h
        · exact Or.inl h
        · exact Or.inr (by simp [h])

/-- Helper: `d[k] = e` keeps the keys of a dict free of duplicates. -/
theorem nodup_keys_dictInsert (k : String) (e : Entry α) (st : Store α)
    (hnd : (keys st).Nodup) : (keys (dictInsert k e st)).Nodup := by
  induction st with
  | nil => simp [dictInsert]
  | cons kv rest ih =>
    have hpair := List.nodup_cons.mp (by simpa using hnd)
    by_cases hk : kv.1 = k
    · simp only [dictInsert, if_pos hk, keys_cons]
      exact List.nodup_cons.mpr ⟨fun hm => hpair.1 (hk ▸ hm), hpair.2⟩
    · simp only [dictInsert, if_neg hk, keys_cons]
      refine List.nodup_cons.mpr ⟨?_, ih hpair.2⟩
      intro hm
      rcases mem_keys_dictInsert kv.1 k e rest hm with h | h
      · exact hk h
      · exact hpair.1 h

/-- Helper: the store `set` leaves behind is a sublist of the insertion
result (eviction only removes bindings). -/
theorem set_store_sublist (s : CacheState α) (now : Int) (k : String) (v : α)
    (ttl : Option Int) :
    List.Sublist ((set now k v ttl s).store)
      (dictInsert k (setEntry now v (ttl.getD s.defaultTtl)) s.store) := by
  simp only [set]
  by_cases hlen :
      (dictInsert k (setEntry now v (ttl.getD s.defaultTtl)) s.store).length > s.maxSize
  · rw [if_pos hlen]
    exact evictOne_sublist now s.maxSize _
  · rw [if_neg hlen]

/-- C4 corrected: the unrestricted claim fails because the just-inserted
entry starts with `hit_count = 0` and can itself be the eviction victim of
the very `set` that stored it.  The statement that holds: `set(k, v, ttl)`
immediately followed by `get(k)` at the same instant returns `v` exactly,
unless the `set` call's own eviction removed the just-inserted key —
that is, whenever `k` is still present when `set` returns. -/
theorem set_get_roundtrip (s : CacheState α) (now : Int) (k : String) (v : α)
    (ttl : Option Int) (hnd : (keys s.store).Nodup)
    (hpres : lookupStore k (set now k v ttl s).store ≠ none) :
    (get now k (set now k v ttl s)).1 = some v := by
  obtain ⟨e, he⟩ : ∃ e, lookupStore k (set now k v ttl s).store = some e := by
    cases hcase : lookupStore k (set now k v ttl s).store with
    | none => exact absurd hcase hpres
    | some e => exact ⟨e, rfl⟩
  have hnd1 := nodup_keys_dictInsert k (setEntry now v (ttl.getD s.defaultTtl)) s.store hnd
  have hmem1 := (set_store_sublist s now k v ttl).subset (mem_of_lookupStore k e _ he)
  have hlook1 := lookupStore_of_mem_nodup k e _ hnd1 hmem1
  rw [lookupStore_dictInsert_self] at hlook1
  obtain rfl : setEntry now v (ttl.getD s.defaultTtl) = e := by simpa using hlook1
  simp only [get, he, expiresPassed_setEntry_now, Bool.false_eq_true, if_false]
  simp [setEntry]

/-- C4 counterexample: in the reachable state `runStateC4` (capacity 1,
entry `"a"` read once), `set("b", 9, ttl=5)` at time 1 evicts the fresh
`"b"` itself, and the immediately following `get("b")` returns absent, not
the value 9 just stored. -/
theorem set_get_roundtrip_counterexample :
    (get 1 "b" (set 1 "b" 9 (some 5) runStateC4)).1 = none ∧
      (get 1 "b" (set 1 "b" 9 (some 5) runStateC4)).1 ≠ some 9 := by
  refine ⟨by decide, by decide⟩

/-- C4 witness: the corrected theorem on an empty store of capacity 2. -/
theorem set_get_roundtrip_witness :
    (keys (init 2 3600 (Disk.absent : Disk Nat)).store).Nodup ∧
      lookupStore "k" (set 0 "k" 7 (some 5) (init 2 3600 (Disk.absent : Disk Nat))).store
        ≠ none ∧
      (get 0 "k" (set 0 "k" 7 (some 5) (init 2 3600 (Disk.absent : Disk Nat)))).1
        = some 7 :=
  ⟨by decide, by decide,
    set_get_roundtrip (init 2 3600 Disk.absent) 0 "k" 7 (some 5) (by decide) (by decide)⟩

/-- C5: a `get` on a present entry whose `expires_at` has strictly passed
returns absent, removes the binding from the store, and leaves the disk
holding exactly the updated store (the synchronous `_save` before the
return); the stored value is never returned. -/
theorem get_expired_removes_and_saves (s : CacheState α) (now : Int)
    (k : String) (e : Entry α) (hnd : (keys s.store).Nodup)
    (hlook : lookupStore k s.store = some e)
    (hexp : expiresPassed now e = true) :
    (get now k s).1 = none ∧
      lookupStore k ((get now k s).2).store = none ∧
      ((get now k s).2).disk = Disk.wellFormed ((get now k s).2).store := by
  have hsnd : ((get now k s).2).store = dictPop k s.store := by
    simp [get, hlook, hexp]
  refine ⟨by simp [get, hlook, hexp], ?_, by simp [get, hlook, hexp]⟩
  rw [hsnd]
  exact lookupStore_dictPop_self k s.store hnd

/-- C5 witness: the theorem on `wStateC5`, whose entry `"k"` expired at
time 3, read at time 10. -/
theorem get_expired_removes_and_saves_witness :
    (keys wStateC5.store).Nodup ∧
      lookupStore "k" wStateC5.store = some ⟨some 4, some 1, some 3, some 0⟩ ∧
      expiresPassed 10 (⟨some 4, some 1, some 3, some 0⟩ : Entry Nat) = true ∧
      ((get 10 "k" wStateC5).1 = none ∧
        lookupStore "k" ((get 10 "k" wStateC5).2).store = none ∧
        ((get 10 "k" wStateC5).2).disk
          = Disk.wellFormed ((get 10 "k" wStateC5).2).store) :=
  ⟨by decide, by decide, by decide,
    get_expired_removes_and_saves wStateC5 10 "k" ⟨some 4, some 1, some 3, some 0⟩
      (by decide) (by decide) (by decide)⟩

/-- C6 corrected: the recording half of the claim holds (`ttl ≤ 0` makes
`expires_at` absent), but the "any subsequent get returns the value" half
fails unrestricted, because the `set` itself can evict the fresh entry
(it starts with `hit_count = 0`).  The statement that holds: unless the
`set` call's own eviction removed the just-inserted key, the entry is
stored with `expires_at` absent and a `get` of that key at any later
instant — however distant — still returns the stored value. -/
theorem set_nonpositive_ttl_never_expires (s : CacheState α) (now : Int)
    (k : String) (v : α) (ttl : Option Int) (hnd : (keys s.store).Nodup)
    (ht : ttl.getD s.defaultTtl ≤ 0)
    (hpres : lookupStore k (set now k v ttl s).store ≠ none) :
    lookupStore k (set now k v ttl s).store
        = some (setEntry now v (ttl.getD s.defaultTtl)) ∧
      (setEntry now v (ttl.getD s.defaultTtl) : Entry α).expires_at = none ∧
      ∀ now2 : Int, (get now2 k (set now k v ttl s)).1 = some v := by
  obtain ⟨e, he⟩ : ∃ e, lookupStore k (set now k v ttl s).store = some e := by
    cases hcase : lookupStore k (set now k v ttl s).store with
    | none => exact absurd hcase hpres
    | some e => exact ⟨e, rfl⟩
  have hnd1 := nodup_keys_dictInsert k (setEntry now v (ttl.getD s.defaultTtl)) s.store hnd
  have hmem1 := (set_store_sublist s now k v ttl).subset (mem_of_lookupStore k e _ he)
  have hlook1 := lookupStore_of_mem_nodup k e _ hnd1 hmem1
  rw [lookupStore_dictInsert_self] at hlook1
  obtain rfl : setEntry now v (ttl.getD s.defaultTtl) = e := by simpa using hlook1
  have hnone : (setEntry now v (ttl.getD s.defaultTtl) : Entry α).expires_at = none := by
    unfold setEntry
    simp only []
    rw [if_neg (by omega)]
  refine ⟨he, hnone, ?_⟩
  intro now2
  have hpass : expiresPassed now2 (setEntry now v (ttl.getD s.defaultTtl) : Entry α)
      = false := by
    unfold expiresPassed
    rw [hnone]
  simp only [get, he, hpass, Bool.false_eq_true, if_false]
  simp [setEntry]

/-- C6 counterexample: in the reachable state `runStateC9` (capacity 1,
entry `"a"` read once), `set("b", 2, ttl=0)` at time 2 evicts the fresh
`"b"` itself: no entry for `"b"` is recorded at all, and a `get("b")`
after an arbitrarily long delay (time 1000) returns absent, not the stored
value. -/
theorem set_nonpositive_ttl_counterexample :
    lookupStore "b" (set 2 "b" 2 (some 0) runStateC9).store = none ∧
      (get 1000 "b" (set 2 "b" 2 (some 0) runStateC9)).1 = none ∧
      (get 1000 "b" (set 2 "b" 2 (some 0) runStateC9)).1 ≠ some 2 := by
  refine ⟨by decide, by decide, by decide⟩

/-- C6 witness: the corrected theorem on an empty store of capacity 2 with
`ttl = 0`. -/
theorem set_nonpositive_ttl_never_expires_witness :
    (keys (init 2 3600 (Disk.absent : Disk Nat)).store).Nodup ∧
      ((some (0 : Int)).getD (init 2 3600 (Disk.absent : Disk Nat)).defaultTtl ≤ 0) ∧
      lookupStore "k" (set 0 "k" 7 (some 0) (init 2 3600 (Disk.absent : Disk Nat))).store
        ≠ none ∧
      (lookupStore "k" (set 0 "k" 7 (some 0) (init 2 3600 (Disk.absent : Disk Nat))).store
          = some (setEntry 0 7 ((some (0 : Int)).getD
              (init 2 3600 (Disk.absent : Disk Nat)).defaultTtl)) ∧
        (setEntry 0 (7 : Nat) ((some (0 : Int)).getD
            (init 2 3600 (Disk.absent : Disk Nat)).defaultTtl)).expires_at = none ∧
        ∀ now2 : Int,
          (get now2 "k" (set 0 "k" 7 (some 0) (init 2 3600 (Disk.absent : Disk Nat)))).1
            = some 7) :=
  ⟨by decide, by decide, by decide,
    set_nonpositive_ttl_never_expires (init 2 3600 Disk.absent) 0 "k" 7 (some 0)
      (by decide) (by decide) (by decide)⟩

/-- C7: whatever entry for `k` is still stored after `set(k, v, ttl)` with
a positive effective ttl carries `created_at = now` and
`expires_at = now + ttl_eff = created_at + ttl_eff`, with `ttl_eff` the
ttl supplied to `set` or `default_ttl` when none was. -/
theorem set_positive_ttl_expiry (s : CacheState α) (now : Int) (k : String)
    (v : α) (ttl : Option Int) (hnd : (keys s.store).Nodup)
    (ht : 0 < ttl.getD s.defaultTtl) (e : Entry α)
    (he : lookupStore k (set now k v ttl s).store = some e) :
    e.created = some now ∧
      e.expires_at = some (now + ttl.getD s.defaultTtl) ∧
      e.expires_at = some (e.created.getD 0 + ttl.getD s.defaultTtl) := by
  have hnd1 := nodup_keys_dictInsert k (setEntry now v (ttl.getD s.defaultTtl)) s.store hnd
  have hmem1 : (k, e) ∈ dictInsert k (setEntry now v (ttl.getD s.defaultTtl)) s.store :=
    (set_store_sublist s now k v ttl).subset (mem_of_lookupStore k e _ he)
  have hlook1 := lookupStore_of_mem_nodup k e _ hnd1 hmem1
  rw [lookupStore_dictInsert_self] at hlook1
  obtain rfl : setEntry now v (ttl.getD s.defaultTtl) = e := by simpa using hlook1
  have hcreated : (setEntry now v (ttl.getD s.defaultTtl) : Entry α).created = some now := rfl
  have hexpiry : (setEntry now v (ttl.getD s.defaultTtl) : Entry α).expires_at
      = some (now + ttl.getD s.defaultTtl) := by
    unfold setEntry
    simp only []
    rw [if_pos ht]
  refine ⟨hcreated, hexpiry, ?_⟩
  rw [hexpiry, hcreated]
  simp

/-- C7 witness: the theorem on an empty store of capacity 2, `ttl = 5`
at time 10: the stored entry is `created = 10`, `expires_at = 15`. -/
theorem set_positive_ttl_expiry_witness :
    (keys (init 2 3600 (Disk.absent : Disk Nat)).store).Nodup ∧
      (0 : Int) < (some (5 : Int)).getD (init 2 3600 (Disk.absent : Disk Nat)).defaultTtl ∧
      lookupStore "k" (set 10 "k" 7 (some 5) (init 2 3600 (Disk.absent : Disk Nat))).store
        = some ⟨some 7, some 10, some 15, some 0⟩ ∧
      ((⟨some 7, some 10, some 15, some 0⟩ : Entry Nat).created = some 10 ∧
        (⟨some 7, some 10, some 15, some 0⟩ : Entry Nat).expires_at
          = some (10 + (some (5 : Int)).getD (init 2 3600 (Disk.absent : Disk Nat)).defaultTtl) ∧
        (⟨some 7, some 10, some 15, some 0⟩ : Entry Nat).expires_at
          = some ((⟨some 7, some 10, some 15, some 0⟩ : Entry Nat).created.getD 0
              + (some (5 : Int)).getD (init 2 3600 (Disk.absent : Disk Nat)).defaultTtl)) :=
  ⟨by decide, by decide, by decide,
    set_positive_ttl_expiry (init 2 3600 Disk.absent) 10 "k" 7 (some 5) (by decide)
      (by decide) ⟨some 7, some 10, some 15, some 0⟩ (by decide)⟩

/-- C8: constructing a cache against a backing file whose content is
unreadable or unparsable (the `json.JSONDecodeError` / `IOError` branch of
`_load`) yields an empty store; `init` and `load` are total functions, so
no exception reaches the caller in the model, mirroring the `try/except`
that swallows the failure. -/
theorem init_garbage_empty (maxSize : Nat) (dttl : Int) :
    (init (α := α) maxSize dttl Disk.garbage).store = [] := rfl

/-- C9: a concrete run reachable from an empty cache: with `max_size = 1`,
`"a"` is inserted and read once (hit count 1, never expires); then
`set("b", 2, ttl=0)` inserts `"b"` with hit count 0, triggering eviction in
which the fresh `"b"` is the unique rank minimum and is evicted itself, so
the immediately following `get("b")` returns absent while `"a"` survives. -/
theorem fresh_key_self_eviction :
    runStateC9.store.length = runStateC9.maxSize ∧
      (∀ kv ∈ runStateC9.store, expiresPassed 2 kv.2 = false) ∧
      (∀ kv ∈ runStateC9.store, 1 ≤ kv.2.hit.getD 0) ∧
      lookupStore "b" runStateC9.store = none ∧
      lookupStore "b" (set 2 "b" 2 (some 0) runStateC9).store = none ∧
      (get 2 "b" (set 2 "b" 2 (some 0) runStateC9)).1 = none ∧
      lookupStore "a" (set 2 "b" 2 (some 0) runStateC9).store ≠ none := by
  refine ⟨by decide, by decide, by decide, by decide, by decide, by decide, by decide⟩

/-- C10: construction never evicts: loading a well-formed backing file
holding more than `max_size` entries yields an in-memory store equal to
the parsed file — every entry is kept and the store exceeds `max_size`
right after construction. -/
theorem init_load_no_capacity_check (maxSize : Nat) (dttl : Int)
    (st : Store α) (h : st.length > maxSize) :
    (init maxSize dttl (Disk.wellFormed st)).store = st ∧
      ((init maxSize dttl (Disk.wellFormed st)).store).length > maxSize :=
  ⟨rfl, h⟩

/-- C10 witness: loading a three-entry file with `max_size = 1` keeps all
three entries. -/
theorem init_load_no_capacity_check_witness :
    bigStoreC3.length > 1 ∧
      ((init 1 3600 (Disk.wellFormed bigStoreC3)).store = bigStoreC3 ∧
        ((init 1 3600 (Disk.wellFormed bigStoreC3)).store).length > 1) :=
  ⟨by decide, init_load_no_capacity_check 1 3600 bigStoreC3 (by decide)⟩

end SmartCacheManager
